import Mathlib

/-!
Verification development for workerman (src/main.go), a queue-driven process
orchestrator.  The Go source is shallowly embedded: Go maps (`map[string]uint`,
`map[string]uint64`) become association lists `List (String × Nat)` with Go's
read-default-zero, insert-on-write and delete semantics; Go `uint`/`uint64`
arithmetic wraps modulo `2 ^ 64`, modelled as `Nat` with explicit `% W`;
the global mutable state (`connections`, `stats`, `limits`) is passed
explicitly.  External collaborators (the beanstalkd broker, the file system,
process execution, JSON encoding) appear only at their interface boundary:
e.g. the outcome of `cmd.Run()` is an `Option String` error message, and the
config file holds the persisted `Limits` value.
-/

namespace Workerman

/-- Modulus of Go unsigned arithmetic on a 64-bit platform: `uint` and
`uint64` values wrap modulo `2 ^ 64`. -/
def W : Nat := 2 ^ 64

/-- Go map lookup (`v, ok := m[k]`) on the association-list model. -/
def lookupA (m : List (String × Nat)) (k : String) : Option Nat :=
  match m with
  | [] => none
  | (k', v) :: rest => if k' = k then some v else lookupA rest k

/-- Go map read `m[k]`: the zero value when the key is absent. -/
def getD (m : List (String × Nat)) (k : String) : Nat :=
  (lookupA m k).getD 0

/-- Go map membership test (`_, ok := m[k]`). -/
def hasA (m : List (String × Nat)) (k : String) : Bool :=
  (lookupA m k).isSome

/-- Go map write `m[k] = v`: overwrite in place, or add the entry. -/
def setA (m : List (String × Nat)) (k : String) (v : Nat) : List (String × Nat) :=
  match m with
  | [] => [(k, v)]
  | (k', v') :: rest => if k' = k then (k, v) :: rest else (k', v') :: setA rest k v

/-- Go `delete(m, k)`. -/
def eraseA (m : List (String × Nat)) (k : String) : List (String × Nat) :=
  match m with
  | [] => []
  | (k', v') :: rest => if k' = k then eraseA rest k else (k', v') :: eraseA rest k

/-- Sum of the values of a map, as a mathematical natural number. -/
def sumA (m : List (String × Nat)) : Nat :=
  match m with
  | [] => 0
  | (_, v) :: rest => v + sumA rest

/-- Go `m[k] += d` on a `uint` map: read (zero if absent), add, store mod `W`. -/
def bumpA (m : List (String × Nat)) (k : String) (d : Nat) : List (String × Nat) :=
  setA m k ((getD m k + d) % W)

/-- Membership in a list of names (the key set of Go's `connections` map). -/
def memB (l : List String) (k : String) : Bool :=
  match l with
  | [] => false
  | x :: rest => if x = k then true else memB rest k

/-- Removal of a name from a list of names (`delete(connections, k)`). -/
def removeAll (l : List String) (k : String) : List String :=
  match l with
  | [] => []
  | x :: rest => if x = k then removeAll rest k else x :: removeAll rest k

/-- The `Limits` struct of main.go: `Total`, `Min`, and the per-queue caps
`Queues` (the spec's `PerQueue`). -/
structure Limits where
  Total : Nat
  Min : Nat
  Queues : List (String × Nat)
deriving DecidableEq

/-- The `Stats` struct of main.go.  The Go struct also carries a pointer to
the global `Limits` used only for JSON serialization; it is omitted here
because it aliases the separately-passed `Limits` state. -/
structure Stats where
  TotalRuns : Nat
  TotalCycles : Nat
  TotalRecoveries : Nat
  LastError : String
  Runs : List (String × Nat)
  Errors : List (String × Nat)
  Running : List (String × Nat)
  TotalRunning : Nat
deriving DecidableEq

/-- The `Sync` message of main.go (the spec's SyncEvent).  `Count` is an
`int8` in the source, embedded into `Int`; the collector only tests
`Count == 1`. -/
structure Sync where
  Worker : String
  Count : Int
  Error : Bool
deriving DecidableEq

/-- Constant `WORKERS_MAX` of main.go. -/
def WORKERS_MAX : Nat := 100

/-- Constant `WORKERS_MIN` of main.go. -/
def WORKERS_MIN : Nat := 5

/-- Constant `DEFAULT_QUEUE_LIMIT` of main.go. -/
def DEFAULT_QUEUE_LIMIT : Nat := 5

/-- The `Stats` value as initialized in `main()`: all counters zero, all
maps empty. -/
def statsInit : Stats :=
  { TotalRuns := 0, TotalCycles := 0, TotalRecoveries := 0, LastError := ""
  , Runs := [], Errors := [], Running := [], TotalRunning := 0 }

/-- The `Limits` value as initialized in `main()` (before `readConfig`). -/
def limitsInit : Limits :=
  { Total := WORKERS_MAX, Min := WORKERS_MIN, Queues := [] }

/-- `canRunWorker` of main.go, verbatim control flow: the per-worker floor
check against `Min`, then the global headroom check against `Total`, within
which the per-queue cap applies only when the worker has a `Queues` entry. -/
def canRunWorker (st : Stats) (l : Limits) (worker : String) : Bool :=
  if getD st.Running worker < l.Min then
    true
  else if st.TotalRunning < l.Total then
    match lookupA l.Queues worker with
    | none => true
    | some limit => decide (getD st.Running worker < limit)
  else
    false

/-- C1: `canRunWorker` follows exactly the spec's decision procedure — allow
when `Running[worker] < Min` (regardless of the total), otherwise, when
`TotalRunning < Total`, allow iff the worker has no `Queues` entry or its
entry exceeds `Running[worker]`; otherwise deny. -/
theorem canRunWorker_decision (st : Stats) (l : Limits) (w : String) :
    canRunWorker st l w = true ↔
      getD st.Running w < l.Min ∨
        (l.Min ≤ getD st.Running w ∧ st.TotalRunning < l.Total ∧
          (lookupA l.Queues w = none ∨
            ∃ k, lookupA l.Queues w = some k ∧ getD st.Running w < k)) := by
  unfold canRunWorker
  by_cases h1 : getD st.Running w < l.Min
  · simp [h1]
  · by_cases h2 : st.TotalRunning < l.Total
    · cases hq : lookupA l.Queues w with
      | none => simp [h1, h2, hq]; omega
      | some k =>
        simp [h1, h2, hq]
        intro _
        omega
    · simp [h1, h2]

/-- C9: a worker name with no `Running` entry (never subscribed, or whose
entry was removed) is treated as running zero instances, so `canRunWorker`
allows it whenever `Min > 0`, and also whenever `TotalRunning < Total` and
the name has no `Queues` entry. -/
theorem canRunWorker_unknown (st : Stats) (l : Limits) (w : String)
    (h : lookupA st.Running w = none) :
    getD st.Running w = 0 ∧
      (0 < l.Min → canRunWorker st l w = true) ∧
      (st.TotalRunning < l.Total → lookupA l.Queues w = none →
        canRunWorker st l w = true) := by
  have hz : getD st.Running w = 0 := by simp [getD, h]
  refine ⟨hz, ?_, ?_⟩
  · intro hm
    unfold canRunWorker
    rw [hz]
    simp [hm]
  · intro ht hq
    unfold canRunWorker
    rw [hz, hq]
    by_cases hm : 0 < l.Min <;> simp [hm, ht]

/-- Witness for C9 at a concrete state: the name `"gamma"` has no `Running`
entry in the freshly initialized stats, and the conclusion holds there. -/
theorem canRunWorker_unknown_holds :
    lookupA statsInit.Running "gamma" = none ∧
      (getD statsInit.Running "gamma" = 0 ∧
        (0 < limitsInit.Min → canRunWorker statsInit limitsInit "gamma" = true) ∧
        (statsInit.TotalRunning < limitsInit.Total →
          lookupA limitsInit.Queues "gamma" = none →
          canRunWorker statsInit limitsInit "gamma" = true)) :=
  ⟨rfl, canRunWorker_unknown statsInit limitsInit "gamma" rfl⟩

theorem lookupA_setA_self (m : List (String × Nat)) (k : String) (v : Nat) :
    lookupA (setA m k v) k = some v := by
  induction m with
  | nil => simp [setA, lookupA]
  | cons p rest ih =>
    obtain ⟨k', v'⟩ := p
    by_cases h : k' = k
    · simp [setA, h, lookupA]
    · simp [setA, h, lookupA, ih]

theorem lookupA_setA_ne (m : List (String × Nat)) (k k' : String) (v : Nat)
    (h : k' ≠ k) : lookupA (setA m k v) k' = lookupA m k' := by
  have h' : k ≠ k' := Ne.symm h
  induction m with
  | nil => simp [setA, lookupA, h']
  | cons p rest ih =>
    obtain ⟨k0, v0⟩ := p
    by_cases h0 : k0 = k
    · subst h0
      simp [setA, lookupA, h']
    · simp only [setA, if_neg h0, lookupA]
      rw [ih]

theorem lookupA_eraseA_self (m : List (String × Nat)) (k : String) :
    lookupA (eraseA m k) k = none := by
  induction m with
  | nil => simp [eraseA, lookupA]
  | cons p rest ih =>
    obtain ⟨k0, v0⟩ := p
    by_cases h0 : k0 = k
    · simp [eraseA, h0, ih]
    · simp [eraseA, h0, lookupA, ih]

theorem lookupA_eraseA_ne (m : List (String × Nat)) (k k' : String)
    (h : k' ≠ k) : lookupA (eraseA m k) k' = lookupA m k' := by
  have h' : k ≠ k' := Ne.symm h
  induction m with
  | nil => simp [eraseA]
  | cons p rest ih =>
    obtain ⟨k0, v0⟩ := p
    by_cases h0 : k0 = k
    · subst h0
      simp [eraseA, lookupA, h', ih]
    · simp only [eraseA, if_neg h0, lookupA]
      rw [ih]

theorem sumA_setA (m : List (String × Nat)) (k : String) (v : Nat) :
    sumA (setA m k v) + getD m k = sumA m + v := by
  induction m with
  | nil => simp [setA, sumA, getD, lookupA]
  | cons p rest ih =>
    obtain ⟨k0, v0⟩ := p
    by_cases h0 : k0 = k
    · simp only [setA, if_pos h0, sumA, getD, lookupA, h0, if_pos rfl]
      simp
      omega
    · simp only [setA, if_neg h0, sumA, getD, lookupA, if_neg h0]
      have := ih
      simp only [getD] at this
      omega

/-- The body of `statisticsCollector` of main.go for one received `Sync`
message: events for workers with no `Runs` entry are logged and dropped;
otherwise `Errors` is bumped when the `Error` flag is set, and a
`Count == 1` event increments `TotalRuns`, `Runs`, `Running` and
`TotalRunning`, while any other `Count` decrements `Running` and
`TotalRunning` (Go `uint` decrement: add `W - 1` mod `W`). -/
def collectStep (st : Stats) (m : Sync) : Stats :=
  if hasA st.Runs m.Worker then
    let st1 := if m.Error then { st with Errors := bumpA st.Errors m.Worker 1 } else st
    if m.Count = 1 then
      { st1 with TotalRuns := (st1.TotalRuns + 1) % W
               , Runs := bumpA st1.Runs m.Worker 1
               , Running := bumpA st1.Running m.Worker 1
               , TotalRunning := (st1.TotalRunning + 1) % W }
    else
      { st1 with Running := bumpA st1.Running m.Worker (W - 1)
               , TotalRunning := (st1.TotalRunning + (W - 1)) % W }
  else
    st

/-- The per-worker stat seeding performed by `watcher` when it subscribes a
new tube: create `Runs` and `Running` entries at zero only when absent. -/
def seedStats (st : Stats) (w : String) : Stats :=
  { st with Runs := if hasA st.Runs w then st.Runs else setA st.Runs w 0
          , Running := if hasA st.Running w then st.Running else setA st.Running w 0 }

/-- An event affecting `Stats`: a `Sync` message consumed by the collector,
or the stat seeding of a reconciler subscription.  Reconciler removals are
deliberately absent, matching the claim's premise. -/
inductive StatsEvent
| syncEvt (m : Sync)
| subscribeEvt (w : String)

/-- One `Stats` transition. -/
def statsStep (st : Stats) (e : StatsEvent) : Stats :=
  match e with
  | .syncEvt m => collectStep st m
  | .subscribeEvt w => seedStats st w

/-- Processing a finite sequence of events. -/
def applyEvents (st : Stats) : List StatsEvent → Stats
  | [] => st
  | e :: es => applyEvents (statsStep st e) es

/-- The aggregator invariant: the running totals agree with the `uint` sums
of the corresponding maps (Go sums wrap modulo `W`). -/
def statsInvariant (st : Stats) : Prop :=
  st.TotalRunning = sumA st.Running % W ∧ st.TotalRuns = sumA st.Runs % W

theorem sumA_bumpA_mod (m : List (String × Nat)) (k : String) (d : Nat) :
    sumA (bumpA m k d) % W = (sumA m + d) % W := by
  have h := sumA_setA m k ((getD m k + d) % W)
  have h2 : sumA (bumpA m k d) + getD m k ≡ sumA m + (getD m k + d) [MOD W] := by
    unfold bumpA
    rw [h]
    exact (Nat.mod_modEq (getD m k + d) W).add_left (sumA m)
  have h3 : sumA (bumpA m k d) + getD m k ≡ (sumA m + d) + getD m k [MOD W] := by
    have : sumA m + (getD m k + d) = (sumA m + d) + getD m k := by omega
    rwa [this] at h2
  exact Nat.ModEq.add_right_cancel' (getD m k) h3

theorem statsInvariant_step (st : Stats) (e : StatsEvent)
    (h : statsInvariant st) : statsInvariant (statsStep st e) := by
  obtain ⟨hTR, hTS⟩ := h
  cases e with
  | subscribeEvt w =>
    constructor
    · show st.TotalRunning = sumA (if hasA st.Running w then st.Running else setA st.Running w 0) % W
      by_cases hw : hasA st.Running w
      · simp [hw, hTR]
      · have hn : lookupA st.Running w = none := by
          simpa [hasA] using hw
        have := sumA_setA st.Running w 0
        simp [getD, hn] at this
        simp [hw, this, hTR]
    · show st.TotalRuns = sumA (if hasA st.Runs w then st.Runs else setA st.Runs w 0) % W
      by_cases hw : hasA st.Runs w
      · simp [hw, hTS]
      · have hn : lookupA st.Runs w = none := by
          simpa [hasA] using hw
        have := sumA_setA st.Runs w 0
        simp [getD, hn] at this
        simp [hw, this, hTS]
  | syncEvt m =>
    show statsInvariant (collectStep st m)
    unfold collectStep
    by_cases hk : hasA st.Runs m.Worker
    · simp only [hk, if_true]
      set st1 := if m.Error then { st with Errors := bumpA st.Errors m.Worker 1 } else st with hst1
      have e1 : st1.Running = st.Running ∧ st1.Runs = st.Runs ∧
          st1.TotalRunning = st.TotalRunning ∧ st1.TotalRuns = st.TotalRuns := by
        by_cases he : m.Error <;> simp [hst1, he]
      obtain ⟨e1a, e1b, e1c, e1d⟩ := e1
      by_cases hc : m.Count = 1
      · simp only [hc, if_true, if_pos]
        constructor
        · show (st1.TotalRunning + 1) % W = sumA (bumpA st1.Running m.Worker 1) % W
          rw [sumA_bumpA_mod, e1a, e1c, hTR, Nat.mod_add_mod]
        · show (st1.TotalRuns + 1) % W = sumA (bumpA st1.Runs m.Worker 1) % W
          rw [sumA_bumpA_mod, e1b, e1d, hTS, Nat.mod_add_mod]
      · simp only [hc, if_false]
        constructor
        · show (st1.TotalRunning + (W - 1)) % W = sumA (bumpA st1.Running m.Worker (W - 1)) % W
          rw [sumA_bumpA_mod, e1a, e1c, hTR, Nat.mod_add_mod]
        · show st1.TotalRuns = sumA st1.Runs % W
          rw [e1b, e1d]
          exact hTS
    · simp [hk, statsInvariant, hTR, hTS]

theorem statsInvariant_applyEvents (es : List StatsEvent) (st : Stats)
    (h : statsInvariant st) : statsInvariant (applyEvents st es) := by
  induction es generalizing st with
  | nil => exact h
  | cons e es ih => exact ih (statsStep st e) (statsInvariant_step st e h)

/-- C2: starting from the initial `Stats`, after any finite sequence of
events processed by the aggregator (`Sync` messages, possibly interleaved
with reconciler stat seedings, but no reconciler removals), `TotalRunning`
equals the `uint` sum of the `Running` map and `TotalRuns` equals the
`uint` sum of the `Runs` map.  Sums are taken modulo `W` because Go `uint`
addition wraps. -/
theorem aggregator_totals (es : List StatsEvent) :
    (applyEvents statsInit es).TotalRunning = sumA (applyEvents statsInit es).Running % W ∧
      (applyEvents statsInit es).TotalRuns = sumA (applyEvents statsInit es).Runs % W :=
  statsInvariant_applyEvents es statsInit (by constructor <;> rfl)

/-- C3 (amended): the aggregator drops an event, leaving `Stats` entirely
unchanged, exactly when the event's worker has no entry in `Stats.Runs` —
a name the reconciler never subscribed.  (Reconciler unsubscription removes
only the `Running` entry and keeps `Runs`, so events for an unsubscribed
worker are still processed; see the counterexample.) -/
theorem collectStep_unknown (st : Stats) (m : Sync)
    (h : lookupA st.Runs m.Worker = none) : collectStep st m = st := by
  unfold collectStep
  simp [hasA, h]

/-- Witness for the amended C3: an event for the never-subscribed name
`"ghost"` leaves the initial stats unchanged. -/
theorem collectStep_unknown_holds :
    lookupA statsInit.Runs "ghost" = none ∧
      collectStep statsInit ⟨"ghost", 1, false⟩ = statsInit :=
  ⟨rfl, collectStep_unknown statsInit ⟨"ghost", 1, false⟩ rfl⟩

/-- The combined mutable state the reconciler works on: the key set of the
`connections` map, the stats and the limits. -/
structure WState where
  connections : List String
  stats : Stats
  limits : Limits
deriving DecidableEq

/-- A log-visible reconciler action. -/
inductive WAction
| subscribeAct (w : String)
| unsubscribeAct (w : String)
deriving DecidableEq

/-- Body of the subscription loop of `watcher` for one discovered worker
file: when not yet connected, connect, record the connection, and seed
`Runs`, `Running` and `limits.Queues` entries only where absent. -/
def subscribeStep (s : WState) (tube : String) : WState × List WAction :=
  if memB s.connections tube then
    (s, [])
  else
    ({ connections := s.connections ++ [tube]
     , stats := seedStats s.stats tube
     , limits := { s.limits with
         Queues := if hasA s.limits.Queues tube then s.limits.Queues
                   else setA s.limits.Queues tube DEFAULT_QUEUE_LIMIT } }
    , [WAction.subscribeAct tube])

/-- The subscription loop of `watcher` over the discovered worker files. -/
def runSubs (s : WState) : List String → WState × List WAction
  | [] => (s, [])
  | f :: rest =>
    let p := subscribeStep s f
    let q := runSubs p.1 rest
    (q.1, p.2 ++ q.2)

/-- Body of the unsubscription loop of `watcher` for one held tube: when the
tube is absent from the discovered files, delete the connection and the
`Running` entry (and only those). -/
def unsubscribeStep (files : List String) (s : WState) (tube : String) :
    WState × List WAction :=
  if memB files tube then
    (s, [])
  else
    ({ s with
        connections := removeAll s.connections tube,
        stats := { s.stats with Running := eraseA s.stats.Running tube } },
      [WAction.unsubscribeAct tube])

/-- The unsubscription loop of `watcher`, iterating over the snapshot of the
held connections (Go permits deleting the visited key while ranging). -/
def runUnsubs (files : List String) (s : WState) : List String → WState × List WAction
  | [] => (s, [])
  | t :: rest =>
    let p := unsubscribeStep files s t
    let q := runUnsubs files p.1 rest
    (q.1, p.2 ++ q.2)

/-- The `watcher` function of main.go (the spec's `reconcile()`): subscribe
every discovered worker file not yet held, then unsubscribe every held tube
no longer discovered.  Returns the new state and the actions performed. -/
def watcher (files : List String) (s : WState) : WState × List WAction :=
  let p := runSubs s files
  let q := runUnsubs files p.1 p.1.connections
  (q.1, p.2 ++ q.2)

theorem memB_append (l l' : List String) (k : String) :
    memB (l ++ l') k = (memB l k || memB l' k) := by
  induction l with
  | nil => simp [memB]
  | cons x rest ih =>
    by_cases h : x = k <;> simp [memB, h, ih]

theorem memB_removeAll_self (l : List String) (k : String) :
    memB (removeAll l k) k = false := by
  induction l with
  | nil => simp [removeAll, memB]
  | cons x rest ih =>
    by_cases h : x = k <;> simp [removeAll, memB, h, ih]

theorem memB_removeAll_le (l : List String) (k x : String)
    (h : memB (removeAll l k) x = true) : memB l x = true := by
  induction l with
  | nil => simp [removeAll, memB] at h
  | cons y rest ih =>
    by_cases hy : y = k
    · simp only [removeAll, if_pos hy] at h
      by_cases hx : y = x <;> simp [memB, hx, ih h]
    · simp only [removeAll, if_neg hy, memB] at h
      by_cases hx : y = x
      · simp [memB, hx]
      · simp only [if_neg hx] at h
        simp [memB, hx, ih h]

theorem memB_removeAll_ne (l : List String) (k x : String) (h : x ≠ k) :
    memB (removeAll l k) x = memB l x := by
  induction l with
  | nil => simp [removeAll]
  | cons y rest ih =>
    by_cases hy : y = k
    · subst hy
      have : y ≠ x := fun hh => h (hh.symm)
      simp [removeAll, memB, this, ih]
    · simp only [removeAll, if_neg hy, memB]
      rw [ih]

theorem subscribeStep_mem (s : WState) (t : String)
    (h : memB s.connections t = true) : subscribeStep s t = (s, []) := by
  simp [subscribeStep, h]

theorem subscribeStep_conn_mono (s : WState) (t x : String)
    (h : memB s.connections x = true) :
    memB (subscribeStep s t).1.connections x = true := by
  unfold subscribeStep
  by_cases ht : memB s.connections t <;> simp [ht, memB_append, h, memB]

theorem subscribeStep_conn_self (s : WState) (t : String) :
    memB (subscribeStep s t).1.connections t = true := by
  unfold subscribeStep
  by_cases ht : memB s.connections t <;> simp [ht, memB_append, memB]

theorem runSubs_conn_mono (files : List String) (s : WState) (x : String)
    (h : memB s.connections x = true) :
    memB (runSubs s files).1.connections x = true := by
  induction files generalizing s with
  | nil => exact h
  | cons f rest ih =>
    exact ih (subscribeStep s f).1 (subscribeStep_conn_mono s f x h)

theorem runSubs_conn_of_file (files : List String) (s : WState) (f : String)
    (h : memB files f = true) :
    memB (runSubs s files).1.connections f = true := by
  induction files generalizing s with
  | nil => simp [memB] at h
  | cons g rest ih =>
    by_cases hg : g = f
    · subst hg
      exact runSubs_conn_mono rest (subscribeStep s g).1 g (subscribeStep_conn_self s g)
    · simp only [memB, if_neg hg] at h
      exact ih (subscribeStep s g).1 h

theorem runSubs_all_mem (files : List String) (s : WState)
    (h : ∀ f, memB files f = true → memB s.connections f = true) :
    runSubs s files = (s, []) := by
  induction files with
  | nil => rfl
  | cons f rest ih =>
    have hf : memB s.connections f = true := h f (by simp [memB])
    have hstep : subscribeStep s f = (s, []) := subscribeStep_mem s f hf
    show (let p := subscribeStep s f
          let q := runSubs p.1 rest
          ((q.1, p.2 ++ q.2) : WState × List WAction)) = (s, [])
    rw [hstep]
    have := ih (by
      intro g hg
      by_cases hgf : f = g
      · exact hgf ▸ hf
      · exact h g (by simp [memB, if_neg hgf, hg]))
    simp [this]

theorem unsubscribeStep_mem (files : List String) (s : WState) (t : String)
    (h : memB files t = true) : unsubscribeStep files s t = (s, []) := by
  simp [unsubscribeStep, h]

theorem runUnsubs_all_files (files tubes : List String) (s : WState)
    (h : ∀ t, memB tubes t = true → memB files t = true) :
    runUnsubs files s tubes = (s, []) := by
  induction tubes with
  | nil => rfl
  | cons t rest ih =>
    have ht : memB files t = true := h t (by simp [memB])
    have hstep : unsubscribeStep files s t = (s, []) := unsubscribeStep_mem files s t ht
    show (let p := unsubscribeStep files s t
          let q := runUnsubs files p.1 rest
          ((q.1, p.2 ++ q.2) : WState × List WAction)) = (s, [])
    rw [hstep]
    have := ih (by
      intro g hg
      by_cases hgt : t = g
      · exact hgt ▸ ht
      · exact h g (by simp [memB, if_neg hgt, hg]))
    simp [this]

theorem unsubscribeStep_conn_le (files : List String) (s : WState) (t x : String)
    (h : memB (unsubscribeStep files s t).1.connections x = true) :
    memB s.connections x = true := by
  unfold unsubscribeStep at h
  by_cases ht : memB files t
  · simpa [ht] using h
  · simp only [ht, Bool.false_eq_true, if_neg] at h
    exact memB_removeAll_le s.connections t x (by simpa using h)

theorem runUnsubs_conn_le (files tubes : List String) (s : WState) (x : String)
    (h : memB (runUnsubs files s tubes).1.connections x = true) :
    memB s.connections x = true := by
  induction tubes generalizing s with
  | nil => exact h
  | cons t rest ih =>
    exact unsubscribeStep_conn_le files s t x (ih (unsubscribeStep files s t).1 h)

theorem unsubscribeStep_conn_none (files : List String) (s : WState) (t x : String)
    (h : memB s.connections x = false) :
    memB (unsubscribeStep files s t).1.connections x = false := by
  unfold unsubscribeStep
  by_cases ht : memB files t
  · simpa [ht] using h
  · by_cases hx : x = t
    · subst hx
      simp [ht, memB_removeAll_self]
    · simp [ht, memB_removeAll_ne s.connections t x hx, h]

theorem runUnsubs_conn_none (files tubes : List String) (s : WState) (x : String)
    (h : memB s.connections x = false) :
    memB (runUnsubs files s tubes).1.connections x = false := by
  induction tubes generalizing s with
  | nil => exact h
  | cons t rest ih =>
    exact ih (unsubscribeStep files s t).1 (unsubscribeStep_conn_none files s t x h)

theorem runUnsubs_removes (files tubes : List String) (s : WState) (x : String)
    (hx : memB tubes x = true) (hf : memB files x = false) :
    memB (runUnsubs files s tubes).1.connections x = false := by
  induction tubes generalizing s with
  | nil => simp [memB] at hx
  | cons t rest ih =>
    by_cases htx : t = x
    · subst htx
      have : memB (unsubscribeStep files s t).1.connections t = false := by
        unfold unsubscribeStep
        simp [hf, memB_removeAll_self]
      exact runUnsubs_conn_none files rest (unsubscribeStep files s t).1 t this
    · simp only [memB, if_neg htx] at hx
      exact ih (unsubscribeStep files s t).1 hx

/-- C7: reconciliation is idempotent — running `watcher` a second time over
the same discovered worker set performs no subscribe or unsubscribe action
and leaves the whole state (connections, stats, limits) exactly as after
the first run. -/
theorem watcher_idempotent (files : List String) (s : WState) :
    watcher files (watcher files s).1 = ((watcher files s).1, []) := by
  set s1 := (watcher files s).1 with hs1
  have hfile_mem : ∀ f, memB files f = true → memB s1.connections f = true := by
    intro f hf
    have h1 : memB (runSubs s files).1.connections f = true :=
      runSubs_conn_of_file files s f hf
    show memB (runUnsubs files (runSubs s files).1 (runSubs s files).1.connections).1.connections f = true
    by_cases hcontra :
        memB (runUnsubs files (runSubs s files).1 (runSubs s files).1.connections).1.connections f = true
    · exact hcontra
    · exfalso
      -- f survives every unsubscribe step because f is among the files
      revert hcontra
      simp only [Bool.not_eq_true]
      intro hcontra
      have : ∀ tubes s0, memB s0.connections f = true →
          memB (runUnsubs files s0 tubes).1.connections f = true := by
        intro tubes
        induction tubes with
        | nil => intro s0 h0; exact h0
        | cons t rest ih =>
          intro s0 h0
          apply ih
          unfold unsubscribeStep
          by_cases ht : memB files t
          · simpa [ht] using h0
          · have hft : f ≠ t := by
              intro hh
              rw [hh] at hf
              simp [hf] at ht
            simp [ht, memB_removeAll_ne s0.connections t f hft, h0]
      have := this (runSubs s files).1.connections (runSubs s files).1 h1
      rw [this] at hcontra
      exact absurd hcontra (by simp)
  have hconn_file : ∀ c, memB s1.connections c = true → memB files c = true := by
    intro c hc
    by_cases hf : memB files c
    · exact hf
    · exfalso
      have hin : memB (runSubs s files).1.connections c = true := by
        have : memB (runUnsubs files (runSubs s files).1 (runSubs s files).1.connections).1.connections c = true := hc
        exact runUnsubs_conn_le files (runSubs s files).1.connections (runSubs s files).1 c this
      have hout : memB (runUnsubs files (runSubs s files).1 (runSubs s files).1.connections).1.connections c = false :=
        runUnsubs_removes files (runSubs s files).1.connections (runSubs s files).1 c hin
          (by simpa using hf)
      have hfalse : memB s1.connections c = false := hout
      rw [hfalse] at hc
      exact Bool.false_ne_true hc
  have h1 : runSubs s1 files = (s1, []) := runSubs_all_mem files s1 hfile_mem
  have h2 : runUnsubs files s1 s1.connections = (s1, []) := by
    exact runUnsubs_all_files files s1.connections s1 hconn_file
  show (let p := runSubs s1 files
        let q := runUnsubs files p.1 p.1.connections
        ((q.1, p.2 ++ q.2) : WState × List WAction)) = (s1, [])
  rw [h1]
  simp only
  rw [h2]
  rfl

theorem subscribeStep_frame (s : WState) (t w : String) (h : t ≠ w) :
    lookupA (subscribeStep s t).1.stats.Runs w = lookupA s.stats.Runs w ∧
      lookupA (subscribeStep s t).1.stats.Running w = lookupA s.stats.Running w ∧
      (subscribeStep s t).1.stats.Errors = s.stats.Errors ∧
      lookupA (subscribeStep s t).1.limits.Queues w = lookupA s.limits.Queues w := by
  have h' : w ≠ t := Ne.symm h
  unfold subscribeStep seedStats
  by_cases hc : memB s.connections t
  · simp [hc]
  · refine ⟨?_, ?_, ?_, ?_⟩
    · by_cases hr : hasA s.stats.Runs t <;>
        simp [hc, hr, lookupA_setA_ne _ _ _ _ h']
    · by_cases hr : hasA s.stats.Running t <;>
        simp [hc, hr, lookupA_setA_ne _ _ _ _ h']
    · simp [hc]
    · by_cases hr : hasA s.limits.Queues t <;>
        simp [hc, hr, lookupA_setA_ne _ _ _ _ h']

theorem runSubs_frame (files : List String) (s : WState) (w : String)
    (h : memB files w = false) :
    lookupA (runSubs s files).1.stats.Runs w = lookupA s.stats.Runs w ∧
      lookupA (runSubs s files).1.stats.Running w = lookupA s.stats.Running w ∧
      (runSubs s files).1.stats.Errors = s.stats.Errors ∧
      lookupA (runSubs s files).1.limits.Queues w = lookupA s.limits.Queues w := by
  induction files generalizing s with
  | nil => exact ⟨rfl, rfl, rfl, rfl⟩
  | cons f rest ih =>
    have hsplit : f ≠ w ∧ memB rest w = false := by
      by_cases hfw : f = w <;> simp [memB, hfw] at h ⊢
      exact h
    obtain ⟨hS1, hS2, hS3, hS4⟩ := subscribeStep_frame s f w hsplit.1
    obtain ⟨hR1, hR2, hR3, hR4⟩ := ih (subscribeStep s f).1 hsplit.2
    exact ⟨hR1.trans hS1, hR2.trans hS2, hR3.trans hS3, hR4.trans hS4⟩

theorem runUnsubs_keeps (files tubes : List String) (s : WState) :
    (runUnsubs files s tubes).1.stats.Runs = s.stats.Runs ∧
      (runUnsubs files s tubes).1.stats.Errors = s.stats.Errors ∧
      (runUnsubs files s tubes).1.limits = s.limits := by
  induction tubes generalizing s with
  | nil => exact ⟨rfl, rfl, rfl⟩
  | cons t rest ih =>
    have hstep : (unsubscribeStep files s t).1.stats.Runs = s.stats.Runs ∧
        (unsubscribeStep files s t).1.stats.Errors = s.stats.Errors ∧
        (unsubscribeStep files s t).1.limits = s.limits := by
      unfold unsubscribeStep
      by_cases ht : memB files t <;> simp [ht]
    obtain ⟨hR1, hR2, hR3⟩ := ih (unsubscribeStep files s t).1
    exact ⟨hR1.trans hstep.1, hR2.trans hstep.2.1, hR3.trans hstep.2.2⟩

theorem runUnsubs_running_keep_none (files tubes : List String) (s : WState)
    (w : String) (h : lookupA s.stats.Running w = none) :
    lookupA (runUnsubs files s tubes).1.stats.Running w = none := by
  induction tubes generalizing s with
  | nil => exact h
  | cons t rest ih =>
    apply ih
    unfold unsubscribeStep
    by_cases ht : memB files t
    · simpa [ht] using h
    · by_cases htw : t = w
      · subst htw
        simp [ht, lookupA_eraseA_self]
      · simp [ht, lookupA_eraseA_ne _ _ _ (Ne.symm htw), h]

theorem runUnsubs_running_none (files tubes : List String) (s : WState)
    (w : String) (hx : memB tubes w = true) (hf : memB files w = false) :
    lookupA (runUnsubs files s tubes).1.stats.Running w = none := by
  induction tubes generalizing s with
  | nil => simp [memB] at hx
  | cons t rest ih =>
    by_cases htw : t = w
    · subst htw
      have h0 : lookupA (unsubscribeStep files s t).1.stats.Running t = none := by
        unfold unsubscribeStep
        simp [hf, lookupA_eraseA_self]
      show lookupA (runUnsubs files (unsubscribeStep files s t).1 rest).1.stats.Running t = none
      exact runUnsubs_running_keep_none files rest (unsubscribeStep files s t).1 t h0
    · simp only [memB, if_neg htw] at hx
      exact ih (unsubscribeStep files s t).1 hx

/-- C4 (amended): when the reconciler unsubscribes a worker name (held in
`connections` but absent from the discovered files), it removes that name's
connection and its `Stats.Running` entry, while leaving its `Stats.Runs`
and `Stats.Errors` entries and `Limits.Queues[name]` intact.  (The claim's
assertion that the `Runs` and `Errors` entries are removed fails on the
code; see the counterexample.) -/
theorem watcher_unsubscribe_frame (files : List String) (s : WState) (w : String)
    (hc : memB s.connections w = true) (hf : memB files w = false) :
    memB (watcher files s).1.connections w = false ∧
      lookupA (watcher files s).1.stats.Running w = none ∧
      lookupA (watcher files s).1.stats.Runs w = lookupA s.stats.Runs w ∧
      lookupA (watcher files s).1.stats.Errors w = lookupA s.stats.Errors w ∧
      lookupA (watcher files s).1.limits.Queues w = lookupA s.limits.Queues w := by
  have hp : memB (runSubs s files).1.connections w = true :=
    runSubs_conn_mono files s w hc
  obtain ⟨hRuns, hRunning, hErrors, hQueues⟩ := runSubs_frame files s w hf
  obtain ⟨hK1, hK2, hK3⟩ :=
    runUnsubs_keeps files (runSubs s files).1.connections (runSubs s files).1
  refine ⟨?_, ?_, ?_, ?_, ?_⟩
  · exact runUnsubs_removes files (runSubs s files).1.connections
      (runSubs s files).1 w hp hf
  · exact runUnsubs_running_none files (runSubs s files).1.connections
      (runSubs s files).1 w hp hf
  · show lookupA (runUnsubs files (runSubs s files).1 (runSubs s files).1.connections).1.stats.Runs w = _
    rw [hK1, hRuns]
  · show lookupA (runUnsubs files (runSubs s files).1 (runSubs s files).1.connections).1.stats.Errors w = _
    rw [hK2, hErrors]
  · show lookupA (runUnsubs files (runSubs s files).1 (runSubs s files).1.connections).1.limits.Queues w = _
    rw [hK3, hQueues]

/-- A concrete state holding one subscribed worker `"w"` with some history:
three lifetime runs, one recorded error, currently not running. -/
def wsC4 : WState :=
  { connections := ["w"]
  , stats := { statsInit with Runs := [("w", 3)], Errors := [("w", 1)], Running := [("w", 0)] }
  , limits := { Total := 100, Min := 5, Queues := [("w", 5)] } }

/-- Witness for C4 (amended), applying the theorem at `wsC4` with an empty
discovered set. -/
theorem watcher_unsubscribe_frame_holds :
    memB wsC4.connections "w" = true ∧ memB [] "w" = false ∧
      (memB (watcher [] wsC4).1.connections "w" = false ∧
        lookupA (watcher [] wsC4).1.stats.Running "w" = none ∧
        lookupA (watcher [] wsC4).1.stats.Runs "w" = lookupA wsC4.stats.Runs "w" ∧
        lookupA (watcher [] wsC4).1.stats.Errors "w" = lookupA wsC4.stats.Errors "w" ∧
        lookupA (watcher [] wsC4).1.limits.Queues "w" = lookupA wsC4.limits.Queues "w") :=
  ⟨rfl, rfl, watcher_unsubscribe_frame [] wsC4 "w" rfl rfl⟩

/-- Counterexample to C4 as stated: unsubscribing `"w"` removes its
connection and its `Running` entry, but its `Runs` and `Errors` entries
survive with their old values — they are not removed as the claim asserts. -/
theorem watcher_keeps_runs_entry :
    memB (watcher [] wsC4).1.connections "w" = false ∧
      lookupA (watcher [] wsC4).1.stats.Running "w" = none ∧
      lookupA (watcher [] wsC4).1.stats.Runs "w" = some 3 ∧
      lookupA (watcher [] wsC4).1.stats.Errors "w" = some 1 := by
  decide

/-- The `WState` as initialized in `main()`: no connections, fresh stats,
default limits. -/
def initWState : WState :=
  { connections := [], stats := statsInit, limits := limitsInit }

/-- The state after the reconciler subscribes worker file `"w"`. -/
def wsSub : WState := (watcher ["w"] initWState).1

/-- The state after the reconciler then unsubscribes `"w"` (its file
disappeared): the connection and `Running` entry are gone, but the `Runs`
entry survives. -/
def wsUnsub : WState := (watcher [] wsSub).1

/-- Counterexample to C3 as stated: after the reconciler unsubscribes
`"w"` (removing its connection and `Running` entry), a `Sync` event for
`"w"` is NOT discarded by the collector — the surviving `Runs` entry passes
the membership test, the event is processed, `Stats` changes, and a fresh
`Running` entry is created for the unsubscribed name. -/
theorem collector_processes_unsubscribed :
    lookupA wsUnsub.stats.Running "w" = none ∧
      memB wsUnsub.connections "w" = false ∧
      collectStep wsUnsub.stats ⟨"w", 1, false⟩ ≠ wsUnsub.stats ∧
      lookupA (collectStep wsUnsub.stats ⟨"w", 1, false⟩).Running "w" = some 1 := by
  decide

/-- Decimal digit test, as `strconv.Atoi` accepts. -/
def isDigitCh (c : Char) : Bool := decide ('0' ≤ c) && decide (c ≤ '9')

/-- Accumulate decimal digits; fail on any non-digit. -/
def digitsToNat (cs : List Char) (acc : Nat) : Option Nat :=
  match cs with
  | [] => some acc
  | c :: rest =>
    if isDigitCh c then digitsToNat rest (acc * 10 + (c.toNat - Char.toNat '0'))
    else none

/-- Parse a non-empty all-digit string. -/
def parseNat (cs : List Char) : Option Nat :=
  match cs with
  | [] => none
  | _ :: _ => digitsToNat cs 0

/-- Largest `int64`, the upper bound `strconv.Atoi` accepts on a 64-bit
platform (beyond it Atoi reports `ErrRange`, which the callers treat as a
parse failure). -/
def INT64_MAX : Nat := 2 ^ 63 - 1

/-- Go `strconv.Atoi` on a 64-bit platform: optional sign, decimal digits,
`none` on empty input, stray characters, or 64-bit signed overflow. -/
def atoi (s : String) : Option Int :=
  match s.data with
  | '+' :: rest =>
    match parseNat rest with
    | some n => if n ≤ INT64_MAX then some (Int.ofNat n) else none
    | none => none
  | '-' :: rest =>
    match parseNat rest with
    | some n => if n ≤ 2 ^ 63 then some (-(Int.ofNat n)) else none
    | none => none
  | cs =>
    match parseNat cs with
    | some n => if n ≤ INT64_MAX then some (Int.ofNat n) else none
    | none => none

/-- Go conversion `uint(i)` of an `int` on a 64-bit platform: two's
complement reduction modulo `2 ^ 64`. -/
def toUint (i : Int) : Nat := (i % (W : Int)).toNat

/-- The body of `setLimits` of main.go for one `(key, value)` pair,
source-ordered: membership in `limits.Queues` is tested FIRST; only a key
not already in `Queues` is then compared against `"*"` (total limit) and
`"-"` (minimum); anything else is logged and skipped.  A value that fails
`strconv.Atoi` leaves the limits unchanged for that pair. -/
def setLimitsPair (l : Limits) (kv : String × String) : Limits :=
  if hasA l.Queues kv.1 then
    match atoi kv.2 with
    | some n => { l with Queues := setA l.Queues kv.1 (toUint n) }
    | none => l
  else if kv.1 = "*" then
    match atoi kv.2 with
    | some n => { l with Total := toUint n }
    | none => l
  else if kv.1 = "-" then
    match atoi kv.2 with
    | some n => { l with Min := toUint n }
    | none => l
  else
    l

/-- The `setLimits` function of main.go over the option pairs.  Go map
iteration order is unspecified; the embedding processes the pairs in list
order.  The function is total: no option pair is fatal. -/
def setLimits (l : Limits) : List (String × String) → Limits
  | [] => l
  | kv :: rest => setLimits (setLimitsPair l kv) rest

/-- The fragment of JSON needed for the `Limits` struct: numbers (its
`uint` fields and per-queue caps) and objects.  Byte-level rendering of a
document and the file I/O around it are the external collaborator; the
config file is modelled by the document it contains. -/
inductive Jval
| jnum (n : Nat)
| jobj (fields : List (String × Jval))

/-- Field lookup in a JSON object, as `json.Unmarshal` resolves keys. -/
def lookupJ (fields : List (String × Jval)) (k : String) : Option Jval :=
  match fields with
  | [] => none
  | (k', v) :: rest => if k' = k then some v else lookupJ rest k

/-- Marshalling of the `Queues` map (`json.Marshal` of `map[string]uint`). -/
def encodeQueues (qs : List (String × Nat)) : List (String × Jval) :=
  match qs with
  | [] => []
  | (k, v) :: rest => (k, Jval.jnum v) :: encodeQueues rest

/-- `limits.Json()` / `limits.PrettyJson()` of main.go: `json.Marshal` of
the `Limits` struct, which never fails. -/
def encodeLimits (l : Limits) : Jval :=
  Jval.jobj [("Total", Jval.jnum l.Total), ("Min", Jval.jnum l.Min),
    ("Queues", Jval.jobj (encodeQueues l.Queues))]

/-- Unmarshalling of one `uint` field: an absent field keeps the zero
value (Go `json.Unmarshal` struct semantics); a non-numeric value is an
error. -/
def decodeNat (v : Option Jval) : Option Nat :=
  match v with
  | none => some 0
  | some (Jval.jnum n) => some n
  | some _ => none

/-- Unmarshalling of the `Queues` object into `map[string]uint`. -/
def decodeQueues (fields : List (String × Jval)) : Option (List (String × Nat)) :=
  match fields with
  | [] => some []
  | (k, Jval.jnum n) :: rest =>
    (match decodeQueues rest with
     | some qs => some ((k, n) :: qs)
     | none => none)
  | _ => none

/-- Unmarshalling of the `Queues` field: absent leaves the nil map. -/
def decodeQueuesField (v : Option Jval) : Option (List (String × Nat)) :=
  match v with
  | none => some []
  | some (Jval.jobj fields) => decodeQueues fields
  | some _ => none

/-- `json.Unmarshal` of a document into the `Limits` struct. -/
def decodeLimits (doc : Jval) : Option Limits :=
  match doc with
  | Jval.jobj fields =>
    (match decodeNat (lookupJ fields "Total"), decodeNat (lookupJ fields "Min"),
        decodeQueuesField (lookupJ fields "Queues") with
     | some t, some m, some qs => some { Total := t, Min := m, Queues := qs }
     | _, _, _ => none)
  | _ => none

/-- The `writeConfig` function of main.go: marshal the current limits and
persist the resulting document. -/
def writeConfig (l : Limits) : Option Jval := some (encodeLimits l)

/-- The `readConfig` function of main.go: a missing config file (`none`)
or one whose document does not unmarshal into a `Limits` value is not
fatal and keeps the current limits; otherwise the decoded value replaces
the limits wholesale. -/
def readConfig (file : Option Jval) (l : Limits) : Limits :=
  match file with
  | none => l
  | some doc =>
    (match decodeLimits doc with
     | some t => t
     | none => l)

theorem decodeQueues_encodeQueues (qs : List (String × Nat)) :
    decodeQueues (encodeQueues qs) = some qs := by
  induction qs with
  | nil => rfl
  | cons p rest ih =>
    obtain ⟨k, v⟩ := p
    simp [encodeQueues, decodeQueues, ih]

theorem decodeLimits_encodeLimits (l : Limits) :
    decodeLimits (encodeLimits l) = some l := by
  simp [encodeLimits, decodeLimits, lookupJ, decodeNat, decodeQueuesField,
    decodeQueues_encodeQueues]

/-- C5 (amended): `setLimits` handles each `(key, value)` pair with the
source's precedence — a key already present in `Limits.Queues` always
updates that entry, even when the key is `"*"` or `"-"`; only otherwise
does `"*"` set `Total` and `"-"` set `Min`; any other absent key is
skipped.  A value that does not parse as an integer leaves the limits
unchanged for that pair, and no pair is fatal. -/
theorem setLimitsPair_spec (l : Limits) (k v : String) :
    (hasA l.Queues k = true →
      (atoi v = none → setLimitsPair l (k, v) = l) ∧
        (∀ n, atoi v = some n →
          setLimitsPair l (k, v) = { l with Queues := setA l.Queues k (toUint n) })) ∧
      (hasA l.Queues k = false → k = "*" →
        (atoi v = none → setLimitsPair l (k, v) = l) ∧
          (∀ n, atoi v = some n → setLimitsPair l (k, v) = { l with Total := toUint n })) ∧
      (hasA l.Queues k = false → k = "-" →
        (atoi v = none → setLimitsPair l (k, v) = l) ∧
          (∀ n, atoi v = some n → setLimitsPair l (k, v) = { l with Min := toUint n })) ∧
      (hasA l.Queues k = false → k ≠ "*" → k ≠ "-" → setLimitsPair l (k, v) = l) := by
  refine ⟨?_, ?_, ?_, ?_⟩
  · intro hq
    constructor
    · intro ha
      simp [setLimitsPair, hq, ha]
    · intro n ha
      simp [setLimitsPair, hq, ha]
  · intro hq hk
    subst hk
    constructor
    · intro ha
      simp [setLimitsPair, hq, ha]
    · intro n ha
      simp [setLimitsPair, hq, ha]
  · intro hq hk
    subst hk
    constructor
    · intro ha
      simp [setLimitsPair, hq, ha]
    · intro n ha
      simp [setLimitsPair, hq, ha]
  · intro hq hk1 hk2
    simp [setLimitsPair, hq, hk1, hk2]

/-- Witness for C5 (amended) at concrete inputs: with `"w"` subscribed at
cap 5, the pair `("w", "9")` updates the per-queue entry. -/
theorem setLimitsPair_spec_holds :
    hasA ({ Total := 100, Min := 5, Queues := [("w", 5)] } : Limits).Queues "w" = true ∧
      atoi "9" = some 9 ∧
      setLimitsPair { Total := 100, Min := 5, Queues := [("w", 5)] } ("w", "9") =
        { Total := 100, Min := 5, Queues := setA [("w", 5)] "w" (toUint 9) } :=
  ⟨rfl, rfl,
    ((setLimitsPair_spec { Total := 100, Min := 5, Queues := [("w", 5)] } "w" "9").1
      rfl).2 9 rfl⟩

/-- Counterexample to C5 as stated: when `"*"` itself is a key of
`Limits.Queues` (reachable, e.g., from a persisted config), the pair
`("*", "10")` does NOT set `Total` as the claim's precedence demands — the
source checks `Queues` membership first, so `Queues["*"]` is updated and
`Total` keeps its old value. -/
theorem setLimits_star_precedence :
    (setLimits { Total := 100, Min := 5, Queues := [("*", 7)] } [("*", "10")]).Total = 100 ∧
      lookupA (setLimits { Total := 100, Min := 5, Queues := [("*", 7)] } [("*", "10")]).Queues "*" =
        some 10 := by
  decide

/-- C8 (amended): from any starting limits in which `"myworker"` is already
subscribed (has a `Queues` entry) and neither `"*"` nor `"-"` is a `Queues`
key, `setLimits {"*": "10", "-": "2", "myworker": "3"}` yields
`Total = 10`, `Min = 2` and `Queues["myworker"] = 3`, and the same three
values are recovered after persisting the limits and loading them back.
(Without the subscription premise the claim fails; see the
counterexample.) -/
theorem setLimits_roundtrip (l : Limits)
    (h1 : hasA l.Queues "myworker" = true)
    (h2 : hasA l.Queues "*" = false)
    (h3 : hasA l.Queues "-" = false) :
    (setLimits l [("*", "10"), ("-", "2"), ("myworker", "3")]).Total = 10 ∧
      (setLimits l [("*", "10"), ("-", "2"), ("myworker", "3")]).Min = 2 ∧
      lookupA (setLimits l [("*", "10"), ("-", "2"), ("myworker", "3")]).Queues "myworker" =
        some 3 ∧
      (readConfig (writeConfig (setLimits l [("*", "10"), ("-", "2"), ("myworker", "3")]))
          limitsInit).Total = 10 ∧
      (readConfig (writeConfig (setLimits l [("*", "10"), ("-", "2"), ("myworker", "3")]))
          limitsInit).Min = 2 ∧
      lookupA (readConfig (writeConfig (setLimits l [("*", "10"), ("-", "2"), ("myworker", "3")]))
          limitsInit).Queues "myworker" = some 3 := by
  have ha1 : atoi "10" = some 10 := rfl
  have ha2 : atoi "2" = some 2 := rfl
  have ha3 : atoi "3" = some 3 := rfl
  have e1 : setLimitsPair l ("*", "10") = { l with Total := 10 } := by
    have : toUint 10 = 10 := rfl
    simp [setLimitsPair, h2, ha1, this]
  have e2 : setLimitsPair { l with Total := 10 } ("-", "2") =
      { l with Total := 10, Min := 2 } := by
    have hq : hasA ({ l with Total := 10 } : Limits).Queues "-" = false := h3
    have : toUint 2 = 2 := rfl
    simp [setLimitsPair, hq, ha2, this]
  have e3 : setLimitsPair { l with Total := 10, Min := 2 } ("myworker", "3") =
      { l with Total := 10, Min := 2, Queues := setA l.Queues "myworker" 3 } := by
    have hq : hasA ({ l with Total := 10, Min := 2 } : Limits).Queues "myworker" = true := h1
    have : toUint 3 = 3 := rfl
    simp [setLimitsPair, hq, ha3, this]
  have efin : setLimits l [("*", "10"), ("-", "2"), ("myworker", "3")] =
      { l with Total := 10, Min := 2, Queues := setA l.Queues "myworker" 3 } := by
    show setLimits (setLimitsPair l ("*", "10")) [("-", "2"), ("myworker", "3")] = _
    rw [e1]
    show setLimits (setLimitsPair { l with Total := 10 } ("-", "2")) [("myworker", "3")] = _
    rw [e2]
    show setLimits (setLimitsPair { l with Total := 10, Min := 2 } ("myworker", "3")) [] = _
    rw [e3]
    rfl
  have hrt : readConfig
      (writeConfig { l with Total := 10, Min := 2, Queues := setA l.Queues "myworker" 3 })
      limitsInit =
      { l with Total := 10, Min := 2, Queues := setA l.Queues "myworker" 3 } := by
    show (match decodeLimits
        (encodeLimits { l with Total := 10, Min := 2, Queues := setA l.Queues "myworker" 3 }) with
      | some t => t
      | none => limitsInit) = _
    rw [decodeLimits_encodeLimits]
  rw [efin, hrt]
  refine ⟨rfl, rfl, ?_, rfl, rfl, ?_⟩ <;>
    exact lookupA_setA_self l.Queues "myworker" 3

/-- Witness for C8 (amended) at a concrete start: `"myworker"` subscribed
at the default cap. -/
theorem setLimits_roundtrip_holds :
    hasA ({ Total := 100, Min := 5, Queues := [("myworker", 5)] } : Limits).Queues "myworker" = true ∧
      (setLimits { Total := 100, Min := 5, Queues := [("myworker", 5)] }
          [("*", "10"), ("-", "2"), ("myworker", "3")]).Total = 10 ∧
      (setLimits { Total := 100, Min := 5, Queues := [("myworker", 5)] }
          [("*", "10"), ("-", "2"), ("myworker", "3")]).Min = 2 ∧
      lookupA (setLimits { Total := 100, Min := 5, Queues := [("myworker", 5)] }
          [("*", "10"), ("-", "2"), ("myworker", "3")]).Queues "myworker" = some 3 ∧
      (readConfig (writeConfig (setLimits { Total := 100, Min := 5, Queues := [("myworker", 5)] }
          [("*", "10"), ("-", "2"), ("myworker", "3")])) limitsInit).Total = 10 ∧
      (readConfig (writeConfig (setLimits { Total := 100, Min := 5, Queues := [("myworker", 5)] }
          [("*", "10"), ("-", "2"), ("myworker", "3")])) limitsInit).Min = 2 ∧
      lookupA (readConfig (writeConfig (setLimits { Total := 100, Min := 5, Queues := [("myworker", 5)] }
          [("*", "10"), ("-", "2"), ("myworker", "3")])) limitsInit).Queues "myworker" = some 3 := by
  have h := setLimits_roundtrip { Total := 100, Min := 5, Queues := [("myworker", 5)] } rfl rfl rfl
  exact ⟨rfl, h.1, h.2.1, h.2.2.1, h.2.2.2.1, h.2.2.2.2.1, h.2.2.2.2.2⟩

/-- Counterexample to C8 as stated: from a starting state where
`"myworker"` is not subscribed (no `Queues` entry), the same `setLimits`
call sets `Total` and `Min` but skips `"myworker"`, so
`Queues["myworker"]` is absent rather than 3. -/
theorem setLimits_roundtrip_needs_subscription :
    (setLimits limitsInit [("*", "10"), ("-", "2"), ("myworker", "3")]).Total = 10 ∧
      (setLimits limitsInit [("*", "10"), ("-", "2"), ("myworker", "3")]).Min = 2 ∧
      lookupA (setLimits limitsInit [("*", "10"), ("-", "2"), ("myworker", "3")]).Queues
        "myworker" = none := by
  decide

def isPrefixCh : List Char → List Char → Bool
  | [], _ => true
  | _ :: _, [] => false
  | p :: ps, c :: cs => if p = c then isPrefixCh ps cs else false

/-- Substring search, as Go `strings.Contains`. -/
def containsSub (needle : List Char) : List Char → Bool
  | [] => isPrefixCh needle []
  | c :: cs => if isPrefixCh needle (c :: cs) then true else containsSub needle cs

/-- The test `strings.Contains(error.Error(), "no such file")` of
`workerRunner`, distinguishing a vanished executable from other failures. -/
def containsNoSuchFile (s : String) : Bool :=
  containsSub ("no such file".data) s.data

/-- The `workerRunner` function of main.go.  Process execution is the
external collaborator: its outcome is `none` for a clean exit and
`some msg` for a non-zero exit or a spawn failure with error text `msg`.
The function emits `Sync{+1, Error: false}` before invoking the executable
and `Sync{-1, hasError}` after; a failure whose text contains
`"no such file"` deletes the worker's connection (and keeps
`hasError = false`), any other failure sets `hasError = true`.  Returns
the updated connections and the emitted events in order. -/
def workerRunner (connections : List String) (worker : String)
    (runError : Option String) : List String × List Sync :=
  match runError with
  | none => (connections, [⟨worker, 1, false⟩, ⟨worker, -1, false⟩])
  | some msg =>
    if containsNoSuchFile msg then
      (removeAll connections worker, [⟨worker, 1, false⟩, ⟨worker, -1, false⟩])
    else
      (connections, [⟨worker, 1, false⟩, ⟨worker, -1, true⟩])

/-- C6: every launch emits exactly `Sync{+1, Error: false}` followed by
`Sync{-1, Error}`, where the final `Error` is true iff the run failed for a
reason other than a missing executable; a missing-executable failure
removes the worker's connection and emits the `-1` event with
`Error = false`; otherwise the connections are untouched. -/
theorem workerRunner_contract (conns : List String) (w : String)
    (res : Option String) :
    (∃ e : Bool, (workerRunner conns w res).2 = [⟨w, 1, false⟩, ⟨w, -1, e⟩]) ∧
      ((workerRunner conns w res).2 = [⟨w, 1, false⟩, ⟨w, -1, true⟩] ↔
        ∃ msg, res = some msg ∧ containsNoSuchFile msg = false) ∧
      ((∃ msg, res = some msg ∧ containsNoSuchFile msg = true) →
        (workerRunner conns w res).1 = removeAll conns w ∧
          (workerRunner conns w res).2 = [⟨w, 1, false⟩, ⟨w, -1, false⟩]) ∧
      ((∀ msg, res = some msg → containsNoSuchFile msg = false) →
        (workerRunner conns w res).1 = conns) := by
  cases res with
  | none =>
    refine ⟨⟨false, rfl⟩, ?_, ?_, fun _ => rfl⟩
    · simp [workerRunner]
    · rintro ⟨msg, hmsg, -⟩
      exact absurd hmsg (by simp)
  | some msg =>
    by_cases h : containsNoSuchFile msg
    · refine ⟨⟨false, by simp [workerRunner, h]⟩, ?_, ?_, ?_⟩
      · simp [workerRunner, h]
      · intro _
        exact ⟨by simp [workerRunner, h], by simp [workerRunner, h]⟩
      · intro hh
        exact absurd (hh msg rfl) (by simp [h])
    · refine ⟨⟨true, by simp [workerRunner, h]⟩, ?_, ?_, ?_⟩
      · simp [workerRunner, h]
      · rintro ⟨m, hm, hc⟩
        cases hm
        simp [hc] at h
      · intro _
        simp [workerRunner, h]

/-- Witness for C6 at concrete inputs: a spawn failure whose text contains
`"no such file"` removes the worker's connection and ends with an
error-free completion event. -/
theorem workerRunner_contract_holds :
    (workerRunner ["w", "x"] "w" (some "no such file or directory")).1 =
        removeAll ["w", "x"] "w" ∧
      (workerRunner ["w", "x"] "w" (some "no such file or directory")).2 =
        [⟨"w", 1, false⟩, ⟨"w", -1, false⟩] :=
  (workerRunner_contract ["w", "x"] "w" (some "no such file or directory")).2.2.1
    ⟨"no such file or directory", rfl, rfl⟩

/-- The `WorkerCommand` struct of main.go (the decoded control message). -/
structure WorkerCommand where
  Command : String
  Options : List (String × String)

/-- The effect of `processCommand` of main.go on the shared limits:
`getLimits` and `getStatus` only serialize state, an unknown command only
logs, and `setLimits` rewrites the limits (and persists them). -/
def processCommandLimits (l : Limits) (cmd : WorkerCommand) : Limits :=
  match cmd.Command with
  | "setLimits" => setLimits l cmd.Options
  | _ => l

/-- An operation of the process that touches the shared state: a `Sync`
event consumed by the statistics collector, a reconciliation pass, or a
processed control command. -/
inductive Op
| syncOp (m : Sync)
| reconcileOp (files : List String)
| commandOp (cmd : WorkerCommand)

/-- One shared-state transition. -/
def opStep (s : WState) (op : Op) : WState :=
  match op with
  | .syncOp m => { s with stats := collectStep s.stats m }
  | .reconcileOp files => (watcher files s).1
  | .commandOp cmd => { s with limits := processCommandLimits s.limits cmd }

/-- Executing a finite sequence of operations. -/
def runOps (s : WState) : List Op → WState
  | [] => s
  | op :: ops => runOps (opStep s op) ops

theorem lookupA_bumpA_self (m : List (String × Nat)) (k : String) (d : Nat) :
    lookupA (bumpA m k d) k = some ((getD m k + d) % W) :=
  lookupA_setA_self m k ((getD m k + d) % W)

theorem lookupA_bumpA_ne (m : List (String × Nat)) (k k' : String) (d : Nat)
    (h : k' ≠ k) : lookupA (bumpA m k d) k' = lookupA m k' :=
  lookupA_setA_ne m k k' ((getD m k + d) % W) h

theorem subscribeStep_runs_some (s : WState) (t w : String) (v : Nat)
    (h : lookupA s.stats.Runs w = some v) :
    lookupA (subscribeStep s t).1.stats.Runs w = some v := by
  unfold subscribeStep seedStats
  by_cases hc : memB s.connections t
  · simpa [hc] using h
  · by_cases htw : t = w
    · subst htw
      have : hasA s.stats.Runs t = true := by simp [hasA, h]
      simpa [hc, this] using h
    · by_cases hr : hasA s.stats.Runs t
      · simpa [hc, hr] using h
      · simpa [hc, hr, lookupA_setA_ne _ _ _ _ (Ne.symm htw)] using h

theorem subscribeStep_errors_eq (s : WState) (t : String) :
    (subscribeStep s t).1.stats.Errors = s.stats.Errors := by
  unfold subscribeStep seedStats
  by_cases hc : memB s.connections t <;> simp [hc]

theorem runSubs_runs_some (files : List String) (s : WState) (w : String)
    (v : Nat) (h : lookupA s.stats.Runs w = some v) :
    lookupA (runSubs s files).1.stats.Runs w = some v := by
  induction files generalizing s with
  | nil => exact h
  | cons f rest ih =>
    exact ih (subscribeStep s f).1 (subscribeStep_runs_some s f w v h)

theorem runSubs_errors_eq (files : List String) (s : WState) :
    (runSubs s files).1.stats.Errors = s.stats.Errors := by
  induction files generalizing s with
  | nil => rfl
  | cons f rest ih =>
    exact (ih (subscribeStep s f).1).trans (subscribeStep_errors_eq s f)

theorem collectStep_runs_lookup (st : Stats) (m : Sync) (w : String) (v : Nat)
    (h : lookupA st.Runs w = some v) :
    lookupA (collectStep st m).Runs w = some v ∨
      lookupA (collectStep st m).Runs w = some ((v + 1) % W) := by
  unfold collectStep
  by_cases hk : hasA st.Runs m.Worker
  · set st1 := if m.Error then { st with Errors := bumpA st.Errors m.Worker 1 } else st with hst1
    have e1 : st1.Runs = st.Runs := by
      by_cases he : m.Error <;> simp [hst1, he]
    by_cases hc : m.Count = 1
    · by_cases hmw : m.Worker = w
      · subst hmw
        right
        have hg : getD st1.Runs m.Worker = v := by simp [getD, e1, h]
        simp [hk, hc, lookupA_bumpA_self, hg]
      · left
        simp only [hk, if_true, hc, if_pos]
        rw [lookupA_bumpA_ne st1.Runs m.Worker w 1 (Ne.symm hmw), e1, h]
    · left
      simp only [hk, if_true, hc, if_false]
      rw [e1, h]
  · left
    simp [hk, h]

theorem collectStep_errors_lookup (st : Stats) (m : Sync) (w : String) (u : Nat)
    (h : lookupA st.Errors w = some u) :
    lookupA (collectStep st m).Errors w = some u ∨
      lookupA (collectStep st m).Errors w = some ((u + 1) % W) := by
  unfold collectStep
  by_cases hk : hasA st.Runs m.Worker
  · set st1 := if m.Error then { st with Errors := bumpA st.Errors m.Worker 1 } else st with hst1
    have e1 : lookupA st1.Errors w = some u ∨
        lookupA st1.Errors w = some ((u + 1) % W) := by
      by_cases he : m.Error
      · by_cases hmw : m.Worker = w
        · subst hmw
          right
          have hg : getD st.Errors m.Worker = u := by simp [getD, h]
          simp [hst1, he, lookupA_bumpA_self, hg]
        · left
          simp [hst1, he, lookupA_bumpA_ne st.Errors m.Worker w 1 (Ne.symm hmw), h]
      · left
        simp [hst1, he, h]
    by_cases hc : m.Count = 1 <;> simpa [hk, hc] using e1
  · left
    simp [hk, h]

/-- C10 (amended): no operation — reconciliation, a collector event,
`setLimits`, or command processing — ever removes an existing `Stats.Runs`
or `Stats.Errors` entry, and the only change either entry can undergo is a
single `uint64` increment modulo `W`; hence each value is non-decreasing as
long as it is below `W - 1`, but an increment at `W - 1` wraps to zero
(see the counterexample for the wrap). -/
theorem runs_errors_preserved (s : WState) (op : Op) (w : String) :
    (∀ v, lookupA s.stats.Runs w = some v →
      ∃ v', lookupA (opStep s op).stats.Runs w = some v' ∧
        (v' = v ∨ v' = (v + 1) % W) ∧ (v < W - 1 → v ≤ v')) ∧
      (∀ u, lookupA s.stats.Errors w = some u →
        ∃ u', lookupA (opStep s op).stats.Errors w = some u' ∧
          (u' = u ∨ u' = (u + 1) % W) ∧ (u < W - 1 → u ≤ u')) := by
  have hmono : ∀ a b : Nat, b = a ∨ b = (a + 1) % W → a < W - 1 → a ≤ b := by
    intro a b hb ha
    rcases hb with hb | hb
    · omega
    · have : (a + 1) % W = a + 1 := Nat.mod_eq_of_lt (by omega)
      omega
  cases op with
  | commandOp cmd =>
    exact ⟨fun v hv => ⟨v, hv, Or.inl rfl, fun _ => le_refl v⟩,
      fun u hu => ⟨u, hu, Or.inl rfl, fun _ => le_refl u⟩⟩
  | reconcileOp files =>
    constructor
    · intro v hv
      refine ⟨v, ?_, Or.inl rfl, fun _ => le_refl v⟩
      show lookupA (watcher files s).1.stats.Runs w = some v
      have h1 : lookupA (runSubs s files).1.stats.Runs w = some v :=
        runSubs_runs_some files s w v hv
      have h2 := (runUnsubs_keeps files (runSubs s files).1.connections
        (runSubs s files).1).1
      show lookupA (runUnsubs files (runSubs s files).1
        (runSubs s files).1.connections).1.stats.Runs w = some v
      rw [h2, h1]
    · intro u hu
      refine ⟨u, ?_, Or.inl rfl, fun _ => le_refl u⟩
      have h1 : (runSubs s files).1.stats.Errors = s.stats.Errors :=
        runSubs_errors_eq files s
      have h2 := (runUnsubs_keeps files (runSubs s files).1.connections
        (runSubs s files).1).2.1
      show lookupA (runUnsubs files (runSubs s files).1
        (runSubs s files).1.connections).1.stats.Errors w = some u
      rw [h2, h1, hu]
  | syncOp m =>
    constructor
    · intro v hv
      rcases collectStep_runs_lookup s.stats m w v hv with h | h
      · exact ⟨v, h, Or.inl rfl, fun _ => le_refl v⟩
      · exact ⟨(v + 1) % W, h, Or.inr rfl, hmono v ((v + 1) % W) (Or.inr rfl)⟩
    · intro u hu
      rcases collectStep_errors_lookup s.stats m w u hu with h | h
      · exact ⟨u, h, Or.inl rfl, fun _ => le_refl u⟩
      · exact ⟨(u + 1) % W, h, Or.inr rfl, hmono u ((u + 1) % W) (Or.inr rfl)⟩

/-- Witness for C10 (amended): with `Runs["w"] = 3`, a collector event for
`"w"` leaves the entry present with value 3 or 4 (and non-decreasing). -/
theorem runs_errors_preserved_holds :
    ∃ v', lookupA (opStep wsC4 (Op.syncOp ⟨"w", 1, false⟩)).stats.Runs "w" = some v' ∧
      (v' = 3 ∨ v' = (3 + 1) % W) ∧ (3 < W - 1 → 3 ≤ v') :=
  (runs_errors_preserved wsC4 (Op.syncOp ⟨"w", 1, false⟩) "w").1 3 rfl

theorem runOps_cons (s : WState) (op : Op) (ops : List Op) :
    runOps s (op :: ops) = runOps (opStep s op) ops := rfl

theorem collectStep_runs_bump (st : Stats) (wn : String) (v : Nat)
    (h : lookupA st.Runs wn = some v) :
    lookupA (collectStep st ⟨wn, 1, false⟩).Runs wn = some ((v + 1) % W) := by
  have hk : hasA st.Runs wn = true := by simp [hasA, h]
  have hg : getD st.Runs wn = v := by simp [getD, h]
  unfold collectStep
  simp [hk, lookupA_bumpA_self, hg]

theorem runOps_replicate_sync (n : Nat) (s : WState) (v : Nat)
    (h : lookupA s.stats.Runs "w" = some (v % W)) :
    lookupA (runOps s (List.replicate n (Op.syncOp ⟨"w", 1, false⟩))).stats.Runs "w" =
      some ((v + n) % W) := by
  induction n generalizing s v with
  | zero => simpa using h
  | succ n ih =>
    rw [List.replicate_succ, runOps_cons]
    have h1 : lookupA (opStep s (Op.syncOp ⟨"w", 1, false⟩)).stats.Runs "w" =
        some ((v + 1) % W) := by
      have := collectStep_runs_bump s.stats "w" (v % W) h
      rwa [Nat.mod_add_mod] at this
    have h2 := ih (opStep s (Op.syncOp ⟨"w", 1, false⟩)) (v + 1)
      (by rw [h1])
    rw [h2]
    have : v + 1 + n = v + (n + 1) := by omega
    rw [this]

/-- Counterexample to C10 as stated: along a genuine operation sequence —
subscribe `"w"`, then launch-start events — `Runs["w"]` reaches the
largest `uint64` value `W - 1` after `W - 1` increments, and the very next
`+1` event wraps it to 0, a strict decrease.  The entry is never removed,
but its value is not monotonically non-decreasing. -/
theorem runs_counter_wraps :
    lookupA (runOps initWState (Op.reconcileOp ["w"] ::
        List.replicate (W - 1) (Op.syncOp ⟨"w", 1, false⟩))).stats.Runs "w" =
      some (W - 1) ∧
      lookupA (runOps initWState (Op.reconcileOp ["w"] ::
          List.replicate W (Op.syncOp ⟨"w", 1, false⟩))).stats.Runs "w" =
        some 0 := by
  have hW : 0 < W := by norm_num [W]
  have h0 : lookupA (opStep initWState (Op.reconcileOp ["w"])).stats.Runs "w" =
      some (0 % W) := by
    have : lookupA (opStep initWState (Op.reconcileOp ["w"])).stats.Runs "w" =
        some 0 := by decide
    rwa [Nat.zero_mod]
  constructor
  · rw [runOps_cons]
    rw [runOps_replicate_sync (W - 1) (opStep initWState (Op.reconcileOp ["w"])) 0 h0]
    rw [Nat.zero_add, Nat.mod_eq_of_lt (Nat.sub_lt hW Nat.one_pos)]
  · rw [runOps_cons]
    rw [runOps_replicate_sync W (opStep initWState (Op.reconcileOp ["w"])) 0 h0]
    rw [Nat.zero_add, Nat.mod_self]

end Workerman
